import Mathlib

/-!
Verification of the offline content-caching shell: the media synchronizer
(extraction, download with dedup, URL rewriting, cleanup), the connectivity
check, the backend API client and the viewer loader.

JavaScript strings are modelled as lists of characters (`JStr`); JS string
operations used by the source (`includes`, `split`, `btoa`, regexp matches)
are implemented below on that representation.  Effectful operations are
modelled by explicit state passing: the filesystem collaborator is a set of
(folder, filename) pairs, the network transport an oracle `JStr → Bool`,
and `Date.now()` an explicit `Nat` argument threaded to the functions that
may consult it.  Fallible JS functions return `Except`.
-/

set_option maxHeartbeats 1000000

/-- A JavaScript string: a sequence of UTF-16-ish code units, modelled as
characters. -/
abbrev JStr := List Char

/-- Coerce a Lean string literal to the JS string model. -/
def jstr (s : String) : JStr := s.toList

/-- JS `String.prototype.includes`: substring containment. -/
def jsIncludes (s sub : JStr) : Bool :=
  (List.range (s.length + 1)).any (fun i => sub.isPrefixOf (s.drop i))

/-- JS `String.prototype.split` with a single-character separator. -/
def jsSplit (sep : Char) : JStr → List JStr
  | [] => [[]]
  | c :: rest =>
    match jsSplit sep rest with
    | [] => [[c]]
    | h :: t => if c = sep then [] :: h :: t else (c :: h) :: t

/-- The base64 alphabet, as `btoa` uses it. -/
def b64Table : JStr := jstr "ABCDEFGHIJKLMNOPQRSTUVWXYZabcdefghijklmnopqrstuvwxyz0123456789+/"

/-- One base64 output character. -/
def b64Char (n : Nat) : Char := b64Table.getD n 'A'

/-- Base64 encoding of a byte list, with `=` padding, as `btoa` produces. -/
def btoaBytes : List Nat → List Char
  | [] => []
  | [a] => [b64Char (a / 4), b64Char (a % 4 * 16), '=', '=']
  | [a, b] => [b64Char (a / 4), b64Char (a % 4 * 16 + b / 16), b64Char (b % 16 * 4), '=']
  | a :: b :: c :: rest =>
    [b64Char (a / 4), b64Char (a % 4 * 16 + b / 16), b64Char (b % 16 * 4 + c / 64),
     b64Char (c % 64)] ++ btoaBytes rest

/-- JS `btoa`: base64 of the code units, throwing (here: `none`) when any
code unit is above 0xFF (`InvalidCharacterError`). -/
def btoaJs (s : JStr) : Option JStr :=
  if s.all (fun ch => ch.toNat ≤ 255) then some (btoaBytes (s.map Char.toNat)) else none

/-- ASCII lowercase of a JS string (`String.prototype.toLowerCase` on the
characters the source's regexes can capture). -/
def toLowerJs (s : JStr) : JStr := s.map Char.toLower

/-- Match of `/\.([a-zA-Z0-9]+)$/` against a name: the alphanumeric suffix
after a final dot, when the name ends that way. -/
def extMatchEnd (name : JStr) : Option JStr :=
  let suf := (name.reverse.takeWhile Char.isAlphanum).reverse
  if suf ≠ [] ∧ (name.take (name.length - suf.length)).getLast? = some '.' then some suf
  else none

/-- Attempt of `/\/scl\/fi\/([^\/]+)\/([^\/\?]+)/` at the head of the string:
the Dropbox `scl/fi` path shape, capturing the file id and the name segment. -/
def sclTry (l : JStr) : Option (JStr × JStr) :=
  if (jstr "/scl/fi/").isPrefixOf l then
    let rest := l.drop 8
    let fileId := rest.takeWhile (fun c => c ≠ '/')
    if fileId = [] then none
    else
      match rest.drop fileId.length with
      | '/' :: rest2 =>
        let name := rest2.takeWhile (fun c => c ≠ '/' ∧ c ≠ '?')
        if name = [] then none else some (fileId, name)
      | _ => none
  else none

/-- Leftmost match of the Dropbox `scl/fi` pattern anywhere in the URL. -/
def sclMatch : JStr → Option (JStr × JStr)
  | [] => none
  | c :: rest =>
    match sclTry (c :: rest) with
    | some r => some r
    | none => sclMatch rest

/-- The media extensions of `/\/([^\/\?]+)\.(mp4|mov|avi|mkv|jpg|jpeg|png|gif)/i`,
in the regex's alternation order. -/
def mediaExts : List JStr :=
  [jstr "mp4", jstr "mov", jstr "avi", jstr "mkv", jstr "jpg", jstr "jpeg", jstr "png",
   jstr "gif"]

/-- Attempt of the old-format Dropbox regex at the head of the string: a `/`,
a greedy run without `/` or `?`, a literal dot, then one of the extensions
(case-insensitively); the greedy group backtracks from the longest split. -/
def oldTryAt (l : JStr) : Option (JStr × JStr) :=
  match l with
  | '/' :: rest =>
    let m := rest.takeWhile (fun c => c ≠ '/' ∧ c ≠ '?')
    ((List.range m.length).reverse.filterMap (fun k =>
      if 1 ≤ k ∧ m.getD k '/' = '.' then
        (mediaExts.filterMap (fun e =>
          if e.isPrefixOf (toLowerJs (m.drop (k + 1))) then some (m.take k, e)
          else none)).head?
      else none)).head?
  | _ => none

/-- Leftmost match of the old-format Dropbox media regex anywhere in the URL. -/
def oldDropboxMatch : JStr → Option (JStr × JStr)
  | [] => none
  | c :: rest =>
    match oldTryAt (c :: rest) with
    | some r => some r
    | none => oldDropboxMatch rest

/-- Decimal digits of a JS number, as string concatenation renders it. -/
def natToJs (n : Nat) : JStr := (Nat.repr n).toList

/-- The first 8 base64 characters of the URL with `/` and `+` removed:
`btoa(url).substring(0, 8).replace(/[\/\+]/g, '')`.  `none` when `btoa`
throws. -/
def urlHashJs (url : JStr) : Option JStr :=
  (btoaJs url).map (fun b => (b.take 8).filter (fun c => c ≠ '/' ∧ c ≠ '+'))

/-- media.js `getFileNameFromUrl(url, prefix)`: derives the local filename
for a remote URL.  `now` is the value `Date.now()` would return should the
emergency fallback run (it runs exactly when `btoa` throws on the URL). -/
def getFileNameFromUrl (now : Nat) (url pfx : JStr) : JStr :=
  if jsIncludes url (jstr "dropbox.com") then
    match sclMatch url with
    | some (fileId, originalName) =>
      let extension :=
        match extMatchEnd originalName with
        | some e => '.' :: toLowerJs e
        | none =>
          if jsIncludes url (jstr ".jpg") || jsIncludes url (jstr ".jpeg") then jstr ".jpg"
          else if jsIncludes url (jstr ".png") then jstr ".png"
          else jstr ".mp4"
      pfx ++ fileId.take 8 ++ extension
    | none =>
      match oldDropboxMatch url with
      | some (base, ext) => pfx ++ base ++ '.' :: toLowerJs ext
      | none =>
        match urlHashJs url with
        | some h => pfx ++ h ++ jstr ".mp4"
        | none => pfx ++ natToJs now ++ jstr ".jpg"
  else
    let parts := jsSplit '/' url
    let fileName := (jsSplit '?' (parts.getLast?.getD [])).headD []
    match urlHashJs url with
    | none => pfx ++ natToJs now ++ jstr ".jpg"
    | some h =>
      if fileName ≠ [] ∧ jsIncludes fileName (jstr ".") then pfx ++ h ++ '_' :: fileName
      else
        let extension :=
          if jsIncludes url (jstr ".mp4") then jstr ".mp4"
          else if jsIncludes url (jstr ".jpg") then jstr ".jpg"
          else if jsIncludes url (jstr ".png") then jstr ".png"
          else jstr ".jpg"
        pfx ++ h ++ extension

/-- Removes the first occurrence of `[?&]dl=[01]` from a URL
(`url.replace(/[?&]dl=[01]/, '')`). -/
def removeDlParam : JStr → JStr
  | [] => []
  | c :: rest =>
    if (c = '?' ∨ c = '&') ∧
        ((jstr "dl=0").isPrefixOf rest ∨ (jstr "dl=1").isPrefixOf rest) then
      rest.drop 4
    else c :: removeDlParam rest

/-- media.js `convertDropboxUrl(url)`: rewrites a Dropbox sharing URL into
its direct-download form by forcing `dl=1`. -/
def convertDropboxUrl (url : JStr) : JStr :=
  if jsIncludes url (jstr "dropbox.com") then
    let cleanUrl := removeDlParam url
    let separator := if jsIncludes cleanUrl (jstr "?") then jstr "&" else jstr "?"
    cleanUrl ++ separator ++ jstr "dl=1"
  else url

/-- media.js `convertVideoUrlForMobile(localUri)`: both branches return the
URI unchanged (the `file://` case merely logs). -/
def convertVideoUrlForMobile (localUri : JStr) : JStr :=
  if localUri ≠ [] ∧ (jstr "file://").isPrefixOf localUri then localUri else localUri

/-- A product of the catalog: `{ style_code, image_url?, video? }`. -/
structure Product where
  style_code : JStr
  image_url : Option JStr
  video : Option JStr
deriving DecidableEq, Repr, Inhabited

/-- A collection of the catalog:
`{ collection_image_url?, products: [...] }`. -/
structure Collection where
  collection_image_url : Option JStr
  products : List Product
deriving DecidableEq, Repr, Inhabited

/-- The catalog document's `collections` object: collection key to
collection, in insertion order (`Object.keys` order for string keys). -/
structure Catalog where
  collections : List (JStr × Collection)
deriving DecidableEq, Repr, Inhabited

/-- JS truthiness of an optional string field: `undefined`/`null` and the
empty string are falsy. -/
def jsTruthy : Option JStr → Option JStr
  | some s => if s = [] then none else some s
  | none => none

/-- One media reference of the catalog: its URL, the filename prefix the
source builds for its role, the target folder, its `type` tag and the
style code or collection key it belongs to. -/
structure MediaOcc where
  url : JStr
  pfx : JStr
  folder : JStr
  ftype : JStr
  ownerKey : JStr
deriving DecidableEq, Repr, Inhabited

/-- The media references of one product, in the order
`extractUniqueMediaFiles` visits them: `image_url` then `video`.  The
prefixes are the ones the source builds at media.js lines 194-196 and
212-214. -/
def productOccs (p : Product) : List MediaOcc :=
  (match jsTruthy p.image_url with
   | some u => [⟨u, p.style_code ++ jstr "_img_", jstr "images", jstr "product_image",
                 p.style_code⟩]
   | none => []) ++
  (match jsTruthy p.video with
   | some u => [⟨u, p.style_code ++ jstr "_vid_", jstr "videos", jstr "product_video",
                 p.style_code⟩]
   | none => [])

/-- The media references of one collection, banner first, then the
products in order. -/
def collectionOccs (k : JStr) (col : Collection) : List MediaOcc :=
  (match jsTruthy col.collection_image_url with
   | some u => [⟨u, jstr "collection_" ++ k ++ jstr "_", jstr "images",
                 jstr "collection_image", k⟩]
   | none => []) ++ col.products.flatMap productOccs

/-- Every media reference of the catalog, in the traversal order shared by
`extractUniqueMediaFiles` and `replaceUrlsWithLocalPaths`. -/
def mediaOccs (c : Catalog) : List MediaOcc :=
  c.collections.flatMap (fun kc => collectionOccs kc.1 kc.2)

/-- The value stored in the extraction map for one URL:
`{ fileName, folder, type, styleCode|collectionKey, directUrl }`. -/
structure FileInfo where
  fileName : JStr
  folder : JStr
  ftype : JStr
  ownerKey : JStr
  directUrl : JStr
deriving DecidableEq, Repr, Inhabited

/-- The extraction map `urlToFileMap`: URL to file info, in insertion
order. -/
abbrev UrlMap := List (JStr × FileInfo)

/-- `Map.prototype.get`-style lookup in the extraction map. -/
def lookupA (u : JStr) : UrlMap → Option FileInfo
  | [] => none
  | (k, fi) :: rest => if k = u then some fi else lookupA u rest

/-- The file info `extractUniqueMediaFiles` computes for a reference when
it inserts it. -/
def mkFileInfo (now : Nat) (o : MediaOcc) : FileInfo :=
  ⟨getFileNameFromUrl now o.url o.pfx, o.folder, o.ftype, o.ownerKey,
   convertDropboxUrl o.url⟩

/-- One step of the extraction walk:
`if (url && !urlToFileMap.has(url)) urlToFileMap.set(url, ...)`. -/
def insertOcc (now : Nat) (m : UrlMap) (o : MediaOcc) : UrlMap :=
  if (lookupA o.url m).isSome then m else m ++ [(o.url, mkFileInfo now o)]

/-- media.js `extractUniqueMediaFiles(jsonData)`: walks the catalog once
(banner, then each product's image then video, collection by collection)
and records the first encounter of each distinct URL. -/
def extractUniqueMediaFiles (now : Nat) (c : Catalog) : UrlMap :=
  (mediaOccs c).foldl (insertOcc now) []

/-- storage.js module state: the session's `downloadedUrls` dedup set and
the files present on local storage, each as (folder name, file name). -/
structure StoreState where
  downloadedUrls : List JStr
  files : List (JStr × JStr)
deriving DecidableEq, Repr, Inhabited

/-- `config.APP_FOLDER`. -/
def appFolder : JStr := jstr "SochApp"

/-- `folderPath.split('/').pop()`. -/
def folderOf (folderPath : JStr) : JStr := (jsSplit '/' folderPath).getLast?.getD []

/-- The platform URI of a stored file, as `Filesystem.getUri` renders it
under the documents directory. -/
def localUri (folderName fileName : JStr) : JStr :=
  jstr "file:///DOCUMENTS/" ++ appFolder ++ jstr "/" ++ folderName ++ jstr "/" ++ fileName

/-- storage.js `downloadFile(url, folderPath, fileName)`.  `net url` tells
whether the transport's `FileTransfer.downloadFile` succeeds for `url`.
Returns the state after the call together with the JS outcome: `.ok none`
when the call skipped (duplicate URL or file already present), `.ok (some ())`
when a download completed, `.error` when the download threw (in which case
the state is the input state: the source mutates nothing before the throw). -/
def downloadFile (net : JStr → Bool) (st : StoreState) (url folderPath fileName : JStr) :
    StoreState × Except JStr (Option Unit) :=
  if url ∈ st.downloadedUrls then (st, .ok none)
  else
    let folderName := folderOf folderPath
    if (folderName, fileName) ∈ st.files then
      ({ st with downloadedUrls := url :: st.downloadedUrls }, .ok none)
    else if net url then
      (⟨url :: st.downloadedUrls, (folderName, fileName) :: st.files⟩, .ok (some ()))
    else (st, .error (jstr "Download failed for " ++ fileName))

/-- storage.js `getLocalFileUri(folderName, fileName)`.  The Filesystem
collaborator is the capability of spec section 4.1: `resolveLocalUri`
returns a platform-addressable reference to a stored file, or null if
absent; the source maps the absent case's throw to `null`. -/
def getLocalFileUri (st : StoreState) (folderName fileName : JStr) : Option JStr :=
  if (folderName, fileName) ∈ st.files then some (localUri folderName fileName) else none

/-- The counters `downloadMediaFiles` keeps, together with the URLs for
which a `FileTransfer` download ran to completion, in order. -/
structure DlStats where
  totalFiles : Nat
  downloadCount : Nat
  skippedCount : Nat
  errorCount : Nat
  transfers : List JStr
deriving DecidableEq, Repr, Inhabited

/-- The download URL used for one extraction-map entry:
`fileInfo.directUrl || originalUrl`. -/
def dlUrlOf (originalUrl : JStr) (fi : FileInfo) : JStr :=
  if fi.directUrl = [] then originalUrl else fi.directUrl

/-- The per-entry loop of `downloadMediaFiles` (media.js lines 370-399):
each entry is attempted through `downloadFile`; a throw is caught, counted
and the loop continues. -/
def downloadLoop (net : JStr → Bool) :
    List (JStr × FileInfo) → StoreState → DlStats → StoreState × DlStats
  | [], st, acc => (st, acc)
  | (originalUrl, fi) :: rest, st, acc =>
    let downloadUrl := dlUrlOf originalUrl fi
    match downloadFile net st downloadUrl (appFolder ++ jstr "/" ++ fi.folder) fi.fileName with
    | (st', .ok none) =>
      downloadLoop net rest st'
        { acc with skippedCount := acc.skippedCount + 1,
                   downloadCount := acc.downloadCount + 1 }
    | (st', .ok (some _)) =>
      downloadLoop net rest st'
        { acc with downloadCount := acc.downloadCount + 1,
                   transfers := acc.transfers ++ [downloadUrl] }
    | (_, .error _) =>
      downloadLoop net rest st
        { acc with errorCount := acc.errorCount + 1,
                   downloadCount := acc.downloadCount + 1 }

/-- The filenames of the extraction map's entries whose target is `folder`:
the `activeImageFiles` / `activeVideoFiles` sets `cleanupUnusedFiles`
builds at media.js lines 263-273. -/
def activeFileNames (now : Nat) (jsonData : Catalog) (folder : JStr) : List JStr :=
  ((extractUniqueMediaFiles now jsonData).filter (fun e => e.2.folder = folder)).map
    (fun e => e.2.fileName)

/-- Whether cleanup leaves a stored file in place: it is kept when its
folder is neither `images` nor `videos`, when its name is active for its
folder, or when the per-file delete fails (the failure is logged and
skipped). -/
def cleanupKeeps (now : Nat) (delOk : JStr → JStr → Bool) (jsonData : Catalog)
    (f : JStr × JStr) : Bool :=
  if f.1 = jstr "images" then
    decide (f.2 ∈ activeFileNames now jsonData (jstr "images")) || !delOk f.1 f.2
  else if f.1 = jstr "videos" then
    decide (f.2 ∈ activeFileNames now jsonData (jstr "videos")) || !delOk f.1 f.2
  else true

/-- media.js `cleanupUnusedFiles(jsonData)`: recomputes the active filename
sets from the current catalog and deletes every file of `images/` and
`videos/` whose name is not active.  `delOk folder name` tells whether the
per-file `Filesystem.deleteFile` succeeds (a failing delete is logged and
the file remains).  Returns the resulting state and `deletedCount`. -/
def cleanupUnusedFiles (isCapacitor : Bool) (now : Nat) (delOk : JStr → JStr → Bool)
    (jsonData : Catalog) (st : StoreState) : StoreState × Nat :=
  if isCapacitor = false then (st, 0)
  else
    (⟨st.downloadedUrls, st.files.filter (cleanupKeeps now delOk jsonData)⟩,
     st.files.countP (fun f => !cleanupKeeps now delOk jsonData f))

/-- The body of media.js `downloadMediaFiles(jsonData)`: extract the unique
media map, run the download loop over it, then clean up unused files. -/
def downloadMediaFilesCore (now : Nat) (net : JStr → Bool) (delOk : JStr → JStr → Bool)
    (jsonData : Catalog) (st : StoreState) : StoreState × DlStats × Nat :=
  let urlToFileMap := extractUniqueMediaFiles now jsonData
  let r := downloadLoop net urlToFileMap st ⟨urlToFileMap.length, 0, 0, 0, []⟩
  let cl := cleanupUnusedFiles true now delOk jsonData r.1
  (cl.1, r.2, cl.2)

/-- media.js `downloadMediaFiles(jsonData)` as the caller sees it: in
browser mode it returns at once; otherwise per-file errors are caught
inside the loop and cleanup never throws, so the promise resolves (the
outer catch that would reject it is unreachable). -/
def downloadMediaFiles (isCapacitor : Bool) (now : Nat) (net : JStr → Bool)
    (delOk : JStr → JStr → Bool) (jsonData : Catalog) (st : StoreState) :
    Except JStr (StoreState × DlStats × Nat) :=
  if isCapacitor = false then .ok (st, ⟨0, 0, 0, 0, []⟩, 0)
  else .ok (downloadMediaFilesCore now net delOk jsonData st)

/-- The rewriting of one product (media.js lines 487-523): image first,
then video, each replaced only when its derived filename resolves to a
local file. -/
def replaceProduct (now : Nat) (st : StoreState) (p : Product) : Product :=
  let p1 :=
    match jsTruthy p.image_url with
    | none => p
    | some u =>
      match getLocalFileUri st (jstr "images")
          (getFileNameFromUrl now u (p.style_code ++ jstr "_img_")) with
      | some uri => { p with image_url := some uri }
      | none => p
  match jsTruthy p1.video with
  | none => p1
  | some u =>
    match getLocalFileUri st (jstr "videos")
        (getFileNameFromUrl now u (p1.style_code ++ jstr "_vid_")) with
    | some uri => { p1 with video := some (convertVideoUrlForMobile uri) }
    | none => p1

/-- The rewriting of one collection (media.js lines 465-524): banner image
first, then each product. -/
def replaceCollection (now : Nat) (st : StoreState) (k : JStr) (col : Collection) :
    Collection :=
  let col1 :=
    match jsTruthy col.collection_image_url with
    | none => col
    | some u =>
      match getLocalFileUri st (jstr "images")
          (getFileNameFromUrl now u (jstr "collection_" ++ k ++ jstr "_")) with
      | some uri => { col with collection_image_url := some uri }
      | none => col
  { col1 with products := col1.products.map (replaceProduct now st) }

/-- media.js `replaceUrlsWithLocalPaths(jsonData)`: deep-copies the catalog
and substitutes a local reference for every media URL whose derived file is
present, keeping the remote URL otherwise. -/
def replaceUrlsWithLocalPaths (isCapacitor : Bool) (now : Nat) (st : StoreState)
    (jsonData : Catalog) : Catalog :=
  if isCapacitor = false then jsonData
  else ⟨jsonData.collections.map (fun kc => (kc.1, replaceCollection now st kc.1 kc.2))⟩

/-- The URL the rewriting step leaves in one media field: the local URI
when the field's derived filename is stored, the original URL otherwise
(videos additionally pass through `convertVideoUrlForMobile`). -/
def replacedUrl (now : Nat) (st : StoreState) (o : MediaOcc) : JStr :=
  match getLocalFileUri st o.folder (getFileNameFromUrl now o.url o.pfx) with
  | some uri => if o.folder = jstr "videos" then convertVideoUrlForMobile uri else uri
  | none => o.url

/-- A media reference after rewriting: only the URL changes. -/
def occSubst (now : Nat) (st : StoreState) (o : MediaOcc) : MediaOcc :=
  { o with url := replacedUrl now st o }

/-- The inputs the connectivity check consumes: the platform signals, the
probe's outcome and whether the check's own machinery worked.
`capacitorStatus` is `none` when the Capacitor network plugin threw (the
source then falls back to the navigator value); `probe` is `some ok` when
the HEAD request returned with `response.ok = ok` and `none` when it threw
or hit the 3-second timeout; `internalOk` is false when the check itself
failed unexpectedly (e.g. the plugins are unavailable). -/
structure ConnInput where
  navigatorOnline : Bool
  capacitorStatus : Option Bool
  probe : Option Bool
  internalOk : Bool
deriving DecidableEq, Repr

/-- The combined platform signal of steps 1-3:
`navigatorOnline || capacitorOnline`. -/
def prelimOnline (i : ConnInput) : Bool :=
  i.navigatorOnline || i.capacitorStatus.getD i.navigatorOnline

/-- storage.js (network module) `checkConnectivity()`: platform signals,
then — only when they suggest online — the live API probe, whose failure
forces offline; any internal failure of the check defaults to offline. -/
def checkConnectivity (i : ConnInput) : Bool :=
  if i.internalOk = false then false
  else if prelimOnline i then
    match i.probe with
    | some ok => ok
    | none => false
  else false

/-- part_001's historical `checkConnectivity` revision, for contrast: a
probe failure keeps the platform answer and an internal failure defaults
to online (the fail-open variant spec section 9 flags). -/
def checkConnectivityLegacy (i : ConnInput) : Bool :=
  if i.internalOk = false then true
  else if prelimOnline i then
    match i.probe with
    | some ok => ok
    | none => prelimOnline i
  else false

/-- The outcome of one `fetch` of the backend endpoint, as `makeApiCall`
observes it: the fetch threw, or a response arrived with its `ok` flag,
status, status text and the result of `response.json()` (`.error` when the
body is not valid JSON, `.ok rows` when it parsed to an array). -/
inductive FetchOutcome (V : Type) where
  | threw (msg : JStr)
  | resp (ok : Bool) (status : Nat) (statusText : JStr) (body : Except JStr (List V))

/-- storage.js (network module) `makeApiCall(endpoint)`: non-ok status and
parse failures become errors wrapped as `API request failed: ...`; on
success the call returns `data[0]` — `none` models the `undefined` a
zero-row array yields. -/
def makeApiCall {V : Type} (o : FetchOutcome V) : Except JStr (Option V) :=
  match o with
  | .threw m => .error (jstr "API request failed: " ++ m)
  | .resp ok status statusText body =>
    if ok = false then
      .error (jstr "API request failed: HTTP error! status: " ++ natToJs status ++
        jstr " - " ++ statusText)
    else
      match body with
      | .error m => .error (jstr "API request failed: " ++ m)
      | .ok data => .ok data.head?

/-- The persisted catalog document: its version marker and its collections.
The `collections` object is modelled as always present on a parsed
document. -/
structure CatalogDoc where
  version : Option JStr
  cat : Catalog
deriving DecidableEq, Repr

/-- A row of the backend's `select=json` response: `{ json: ... }`. -/
structure JsonRow where
  json : Option CatalogDoc
deriving DecidableEq, Repr

/-- A row of the backend's `select=html_url` response:
`{ html_url: ... }`. -/
structure HtmlRow where
  html_url : Option JStr
deriving DecidableEq, Repr

/-- The app's persisted storage as the viewer loader sees it: the
`json/data.json` snapshot (none when absent or unparseable), whether
`html/flipbook.html` is present, and the media store. -/
structure AppFS where
  jsonData : Option CatalogDoc
  htmlPresent : Bool
  media : StoreState
deriving DecidableEq, Repr

/-- flipbook.js `checkLocalJsonExists()`: the stored JSON reads back and
has a `collections` object. -/
def checkLocalJsonExists (fs : AppFS) : Bool := fs.jsonData.isSome

/-- flipbook.js `checkLocalHtmlExists()`: the stored viewer HTML reads
back. -/
def checkLocalHtmlExists (fs : AppFS) : Bool := fs.htmlPresent

/-- storage.js `getCurrentJsonVersion()`: the version field of the stored
snapshot, null-ish when no snapshot exists. -/
def getCurrentJsonVersion (fs : AppFS) : Option JStr :=
  match fs.jsonData with
  | some d => d.version
  | none => none

/-- One observable network request the viewer loader issues: a backend API
call or a file transfer. -/
inductive NetReq where
  | api (endpoint : JStr)
  | transfer (url : JStr)
deriving DecidableEq, Repr

/-- The effect oracles `loadFlipbook` consumes: the connectivity flag read
from the network module, the clock, the transport and delete oracles for
the media pass, the outcomes of the (up to) two `select=json` calls, of the
`select=html_url` call and of the HTML file transfer, and whether the
container element exists. -/
structure LoadEnv where
  isOnline : Bool
  now : Nat
  net : JStr → Bool
  delOk : JStr → JStr → Bool
  fetchJson1 : FetchOutcome JsonRow
  fetchJson2 : FetchOutcome JsonRow
  fetchHtmlUrl : FetchOutcome HtmlRow
  htmlTransferOk : Bool
  containerExists : Bool

/-- The error message of flipbook.js line 860. -/
def firstTimeSetupMsg : JStr :=
  jstr "No local content available and device is offline. Please connect to internet for first-time setup."

/-- Steps 3-6 of `loadFlipbook`: verify the required local files, read the
JSON back, process it and render in the iframe.  Returns the JS return
value, the message `showErrorMessage` displayed (if any), the storage and
the accumulated request trace. -/
def loadFinish (env : LoadEnv) (fs : AppFS) (trace : List NetReq) :
    (Bool × Option JStr) × AppFS × List NetReq :=
  if (checkLocalHtmlExists fs && checkLocalJsonExists fs) = false then
    ((false, some (jstr "Required local files not available")), fs, trace)
  else
    match fs.jsonData with
    | none => ((false, some (jstr "Invalid JSON data structure")), fs, trace)
    | some _ => if env.containerExists then ((true, none), fs, trace)
                else ((false, none), fs, trace)

/-- The `downloadErr` catch of `loadFlipbook` (lines 907-913): fall back to
the pre-existing local content when it was there, otherwise rethrow (which
the outer catch turns into the error screen). -/
def loadRecover (env : LoadEnv) (hasLocalJson hasLocalHtml : Bool) (fs : AppFS)
    (trace : List NetReq) : (Bool × Option JStr) × AppFS × List NetReq :=
  if hasLocalJson && hasLocalHtml then loadFinish env fs trace
  else ((false, some (jstr "Download failed and no local content available")), fs, trace)

/-- The fresh-content branch of `loadFlipbook` (lines 892-914): fetch the
catalog, persist it, run the media pass, then download and save the viewer
HTML; any throw lands in `loadRecover`. -/
def downloadFreshContent (env : LoadEnv) (hasLocalJson hasLocalHtml : Bool) (fs : AppFS)
    (trace : List NetReq) : (Bool × Option JStr) × AppFS × List NetReq :=
  let trace := trace ++ [NetReq.api (jstr "json")]
  match makeApiCall env.fetchJson2 with
  | .error _ => loadRecover env hasLocalJson hasLocalHtml fs trace
  | .ok none => loadRecover env hasLocalJson hasLocalHtml fs trace
  | .ok (some row) =>
    match row.json with
    | none => loadRecover env hasLocalJson hasLocalHtml fs trace
    | some doc =>
      let fs1 : AppFS := { fs with jsonData := some doc }
      match downloadMediaFiles true env.now env.net env.delOk doc.cat fs1.media with
      | .error _ => loadRecover env hasLocalJson hasLocalHtml fs1 trace
      | .ok (st', stats, _) =>
        let fs2 : AppFS := { fs1 with media := st' }
        let trace := trace ++ stats.transfers.map NetReq.transfer ++
          [NetReq.api (jstr "html_url")]
        match makeApiCall env.fetchHtmlUrl with
        | .error _ => loadRecover env hasLocalJson hasLocalHtml fs2 trace
        | .ok none => loadRecover env hasLocalJson hasLocalHtml fs2 trace
        | .ok (some hrow) =>
          match hrow.html_url with
          | none => loadRecover env hasLocalJson hasLocalHtml fs2 trace
          | some hurl =>
            let trace := trace ++ [NetReq.transfer hurl]
            if env.htmlTransferOk then
              loadFinish env { fs2 with htmlPresent := true } trace
            else loadRecover env hasLocalJson hasLocalHtml fs2 trace

/-- flipbook.js `loadFlipbook()` (lines 843-988): offline requires both
local artifacts (else the first-time-setup error); online either
version-checks existing content or downloads fresh content, then renders
from local storage. -/
def loadFlipbook (env : LoadEnv) (fs : AppFS) :
    (Bool × Option JStr) × AppFS × List NetReq :=
  let hasLocalJson := checkLocalJsonExists fs
  let hasLocalHtml := checkLocalHtmlExists fs
  if env.isOnline = false then
    if hasLocalJson && hasLocalHtml then loadFinish env fs []
    else ((false, some firstTimeSetupMsg), fs, [])
  else
    if hasLocalJson && hasLocalHtml then
      let trace := [NetReq.api (jstr "json")]
      let needsDownload :=
        match makeApiCall env.fetchJson1 with
        | .error _ => false
        | .ok none => false
        | .ok (some row) =>
          match row.json with
          | none => false
          | some doc => decide (¬ getCurrentJsonVersion fs = doc.version)
      if needsDownload then downloadFreshContent env true true fs trace
      else loadFinish env fs trace
    else downloadFreshContent env hasLocalJson hasLocalHtml fs []

/-- The concrete catalogs, states and oracles the witnesses and
counterexamples below evaluate the definitions on. -/
def urlA : JStr := jstr "https://h/a.jpg"

def urlB : JStr := jstr "https://h/b.jpg"

def urlC : JStr := jstr "https://h/c.jpg"

def urlX : JStr := jstr "https://h/x.jpg"

def urlEuro : JStr := jstr "https://h/€"

def catABC : Catalog :=
  ⟨[(jstr "k", ⟨none, [⟨jstr "A", some urlA, none⟩, ⟨jstr "B", some urlB, none⟩,
                       ⟨jstr "C", some urlC, none⟩]⟩)]⟩

def catShared : Catalog :=
  ⟨[(jstr "c", ⟨none, [⟨jstr "A", some urlX, none⟩, ⟨jstr "B", some urlX, none⟩]⟩)]⟩

def catEuro : Catalog := ⟨[(jstr "k", ⟨none, [⟨jstr "A", some urlEuro, none⟩]⟩)]⟩

def catAC : Catalog :=
  ⟨[(jstr "c", ⟨none, [⟨jstr "A", some urlA, none⟩, ⟨jstr "C", some urlC, none⟩]⟩)]⟩

def netFailC : JStr → Bool := fun u => !(u = urlC : Bool)

def alwaysOk : JStr → Bool := fun _ => true

def delAlwaysOk : JStr → JStr → Bool := fun _ _ => true

/- ------------------------------------------------------------------ -/
/- Helper lemmas. -/

theorem btoaJs_eq_some (url : JStr) (h : ∀ ch ∈ url, ch.toNat ≤ 255) :
    btoaJs url = some (btoaBytes (url.map Char.toNat)) := by
  unfold btoaJs
  rw [if_pos]
  exact List.all_eq_true.mpr (fun ch hch => decide_eq_true (h ch hch))

theorem urlHashJs_isSome (url : JStr) (h : ∀ ch ∈ url, ch.toNat ≤ 255) :
    urlHashJs url =
      some (((btoaBytes (url.map Char.toNat)).take 8).filter
        (fun c => c ≠ '/' ∧ c ≠ '+')) := by
  unfold urlHashJs
  rw [btoaJs_eq_some url h]
  rfl

theorem getFileNameFromUrl_time_indep (t1 t2 : Nat) (url pfx : JStr)
    (h : ∀ ch ∈ url, ch.toNat ≤ 255) :
    getFileNameFromUrl t1 url pfx = getFileNameFromUrl t2 url pfx := by
  unfold getFileNameFromUrl
  rw [urlHashJs_isSome url h]

theorem lookupA_append_some (u : JStr) (m m' : UrlMap) (fi : FileInfo)
    (h : lookupA u m = some fi) : lookupA u (m ++ m') = some fi := by
  induction m with
  | nil => simp [lookupA] at h
  | cons e rest ih =>
    by_cases hk : e.1 = u
    · simpa [lookupA, hk] using by simpa [lookupA, hk] using h
    · simp only [lookupA, hk, if_neg] at h ⊢
      · exact ih h

theorem lookupA_append_none (u : JStr) (m m' : UrlMap) (h : lookupA u m = none) :
    lookupA u (m ++ m') = lookupA u m' := by
  induction m with
  | nil => rfl
  | cons e rest ih =>
    by_cases hk : e.1 = u
    · simp [lookupA, hk] at h
    · simp only [lookupA, hk, if_neg] at h ⊢
      · exact ih h

theorem lookupA_eq_none_iff (u : JStr) (m : UrlMap) :
    lookupA u m = none ↔ u ∉ m.map Prod.fst := by
  induction m with
  | nil => simp [lookupA]
  | cons e rest ih =>
    obtain ⟨k, fi⟩ := e
    by_cases hk : k = u
    · subst hk
      simp [lookupA]
    · rw [show lookupA u ((k, fi) :: rest) = lookupA u rest from by simp [lookupA, hk]]
      rw [ih]
      simp [Ne.symm hk]

theorem lookupA_isSome_iff (u : JStr) (m : UrlMap) :
    (lookupA u m).isSome = true ↔ u ∈ m.map Prod.fst := by
  constructor
  · intro h
    by_contra hmem
    rw [(lookupA_eq_none_iff u m).mpr hmem] at h
    simp at h
  · intro hmem
    cases h : lookupA u m with
    | some fi => simp
    | none => exact absurd ((lookupA_eq_none_iff u m).mp h) (by simp [hmem])

theorem foldl_insertOcc_preserves (t : Nat) (u : JStr) (fi : FileInfo) :
    ∀ (occs : List MediaOcc) (m : UrlMap), lookupA u m = some fi →
      lookupA u (occs.foldl (insertOcc t) m) = some fi := by
  intro occs
  induction occs with
  | nil => intro m h; exact h
  | cons o rest ih =>
    intro m h
    simp only [List.foldl_cons]
    apply ih
    unfold insertOcc
    by_cases hs : (lookupA o.url m).isSome = true
    · rw [if_pos hs]; exact h
    · rw [if_neg hs]; exact lookupA_append_some u m _ fi h

theorem foldl_insertOcc_first (t : Nat) (u : JStr) :
    ∀ (occs : List MediaOcc) (m : UrlMap), lookupA u m = none →
      lookupA u (occs.foldl (insertOcc t) m) =
        (occs.find? (fun o => decide (o.url = u))).map (mkFileInfo t) := by
  intro occs
  induction occs with
  | nil => intro m h; simpa using h
  | cons o rest ih =>
    intro m h
    simp only [List.foldl_cons]
    by_cases hu : o.url = u
    · have hs : (lookupA o.url m).isSome ≠ true := by rw [hu, h]; simp
      have hstep : insertOcc t m o = m ++ [(o.url, mkFileInfo t o)] := by
        unfold insertOcc
        rw [if_neg hs]
      have hlook : lookupA u (insertOcc t m o) = some (mkFileInfo t o) := by
        rw [hstep, lookupA_append_none u m _ h, hu]
        simp [lookupA]
      rw [foldl_insertOcc_preserves t u (mkFileInfo t o) rest _ hlook]
      rw [List.find?_cons_of_pos _ (by simpa using hu)]
      rfl
    · rw [List.find?_cons_of_neg _ (by simpa using hu)]
      apply ih
      unfold insertOcc
      by_cases hs : (lookupA o.url m).isSome = true
      · rw [if_pos hs]; exact h
      · rw [if_neg hs, lookupA_append_none u m _ h]
        simp [lookupA, hu]

theorem foldl_insertOcc_keys_nodup (t : Nat) :
    ∀ (occs : List MediaOcc) (m : UrlMap), (m.map Prod.fst).Nodup →
      ((occs.foldl (insertOcc t) m).map Prod.fst).Nodup := by
  intro occs
  induction occs with
  | nil => intro m h; exact h
  | cons o rest ih =>
    intro m h
    simp only [List.foldl_cons]
    apply ih
    unfold insertOcc
    by_cases hs : (lookupA o.url m).isSome = true
    · rw [if_pos hs]; exact h
    · rw [if_neg hs]
      have hnm : o.url ∉ m.map Prod.fst :=
        (lookupA_eq_none_iff o.url m).mp (Option.not_isSome_iff_eq_none.mp hs)
      simp only [List.map_append, List.map_cons, List.map_nil]
      rw [List.nodup_append]
      refine ⟨h, List.nodup_singleton _, ?_⟩
      intro a ha hb
      simp only [List.mem_singleton] at hb
      subst hb
      exact hnm ha

theorem foldl_insertOcc_mem_source (t : Nat) :
    ∀ (occs : List MediaOcc) (m : UrlMap) (e : JStr × FileInfo),
      e ∈ occs.foldl (insertOcc t) m →
      e ∈ m ∨ ∃ o ∈ occs, e = (o.url, mkFileInfo t o) := by
  intro occs
  induction occs with
  | nil => intro m e he; exact Or.inl he
  | cons o rest ih =>
    intro m e he
    simp only [List.foldl_cons] at he
    rcases ih _ e he with hm | ⟨o', ho', he'⟩
    · unfold insertOcc at hm
      by_cases hs : (lookupA o.url m).isSome = true
      · rw [if_pos hs] at hm; exact Or.inl hm
      · rw [if_neg hs] at hm
        rcases List.mem_append.mp hm with h1 | h2
        · exact Or.inl h1
        · exact Or.inr ⟨o, List.mem_cons_self o rest, by simpa using h2⟩
    · exact Or.inr ⟨o', List.mem_cons_of_mem o ho', he'⟩

theorem extract_keys_nodup (t : Nat) (c : Catalog) :
    ((extractUniqueMediaFiles t c).map Prod.fst).Nodup :=
  foldl_insertOcc_keys_nodup t (mediaOccs c) [] (by simp)

theorem extract_lookup_eq_find (t : Nat) (c : Catalog) (u : JStr) :
    lookupA u (extractUniqueMediaFiles t c) =
      ((mediaOccs c).find? (fun o => decide (o.url = u))).map (mkFileInfo t) :=
  foldl_insertOcc_first t u (mediaOccs c) [] rfl

theorem extract_mem_source (t : Nat) (c : Catalog) (e : JStr × FileInfo)
    (he : e ∈ extractUniqueMediaFiles t c) :
    ∃ o ∈ mediaOccs c, e = (o.url, mkFileInfo t o) := by
  rcases foldl_insertOcc_mem_source t (mediaOccs c) [] e he with h | h
  · simp at h
  · exact h

theorem insertOcc_time_indep (t1 t2 : Nat) (m : UrlMap) (o : MediaOcc)
    (h : ∀ ch ∈ o.url, ch.toNat ≤ 255) : insertOcc t1 m o = insertOcc t2 m o := by
  unfold insertOcc mkFileInfo
  rw [getFileNameFromUrl_time_indep t1 t2 o.url o.pfx h]

theorem extract_time_indep (t1 t2 : Nat) (c : Catalog)
    (h : ∀ o ∈ mediaOccs c, ∀ ch ∈ o.url, ch.toNat ≤ 255) :
    extractUniqueMediaFiles t1 c = extractUniqueMediaFiles t2 c := by
  unfold extractUniqueMediaFiles
  have : ∀ (occs : List MediaOcc) (m : UrlMap),
      (∀ o ∈ occs, ∀ ch ∈ o.url, ch.toNat ≤ 255) →
      occs.foldl (insertOcc t1) m = occs.foldl (insertOcc t2) m := by
    intro occs
    induction occs with
    | nil => intro m _; rfl
    | cons o rest ih =>
      intro m hall
      simp only [List.foldl_cons]
      rw [insertOcc_time_indep t1 t2 m o (hall o (List.mem_cons_self o rest))]
      exact ih _ (fun o' ho' => hall o' (List.mem_cons_of_mem o ho'))
  exact this (mediaOccs c) [] h

theorem mediaOccs_folder (c : Catalog) (o : MediaOcc) (ho : o ∈ mediaOccs c) :
    o.folder = jstr "images" ∨ o.folder = jstr "videos" := by
  unfold mediaOccs at ho
  rw [List.mem_flatMap] at ho
  obtain ⟨kc, _, hkc⟩ := ho
  unfold collectionOccs at hkc
  rcases List.mem_append.mp hkc with hb | hp
  · rcases hban : jsTruthy kc.2.collection_image_url with _ | u <;> rw [hban] at hb
    · simp at hb
    · simp only [List.mem_singleton] at hb
      subst hb
      exact Or.inl rfl
  · rw [List.mem_flatMap] at hp
    obtain ⟨p, _, hpo⟩ := hp
    unfold productOccs at hpo
    rcases List.mem_append.mp hpo with hi | hv
    · rcases him : jsTruthy p.image_url with _ | u <;> rw [him] at hi
      · simp at hi
      · simp only [List.mem_singleton] at hi
        subst hi
        exact Or.inl rfl
    · rcases hvd : jsTruthy p.video with _ | u <;> rw [hvd] at hv
      · simp at hv
      · simp only [List.mem_singleton] at hv
        subst hv
        exact Or.inr rfl

theorem downloadFile_cases (net : JStr → Bool) (st : StoreState)
    (url folderPath fileName : JStr) :
    (url ∈ st.downloadedUrls ∧ downloadFile net st url folderPath fileName = (st, .ok none))
    ∨ (url ∉ st.downloadedUrls ∧ (folderOf folderPath, fileName) ∈ st.files ∧
        downloadFile net st url folderPath fileName =
          ({ st with downloadedUrls := url :: st.downloadedUrls }, .ok none))
    ∨ (url ∉ st.downloadedUrls ∧ (folderOf folderPath, fileName) ∉ st.files ∧
        net url = true ∧
        downloadFile net st url folderPath fileName =
          (⟨url :: st.downloadedUrls, (folderOf folderPath, fileName) :: st.files⟩,
           .ok (some ())))
    ∨ (url ∉ st.downloadedUrls ∧ (folderOf folderPath, fileName) ∉ st.files ∧
        net url = false ∧
        downloadFile net st url folderPath fileName =
          (st, .error (jstr "Download failed for " ++ fileName))) := by
  unfold downloadFile
  by_cases h1 : url ∈ st.downloadedUrls
  · exact Or.inl ⟨h1, by rw [if_pos h1]⟩
  · rw [if_neg h1]
    by_cases h2 : (folderOf folderPath, fileName) ∈ st.files
    · exact Or.inr (Or.inl ⟨h1, h2, by rw [if_pos h2]⟩)
    · rw [if_neg h2]
      by_cases h3 : net url = true
      · exact Or.inr (Or.inr (Or.inl ⟨h1, h2, h3, by rw [if_pos h3]⟩))
      · exact Or.inr (Or.inr (Or.inr ⟨h1, h2, by simpa using h3,
          by rw [if_neg h3]⟩))

theorem downloadLoop_dl_mono (net : JStr → Bool) :
    ∀ (entries : List (JStr × FileInfo)) (st : StoreState) (acc : DlStats) (u : JStr),
      u ∈ st.downloadedUrls → u ∈ (downloadLoop net entries st acc).1.downloadedUrls := by
  intro entries
  induction entries with
  | nil => intro st acc u hu; exact hu
  | cons e rest ih =>
    intro st acc u hu
    obtain ⟨originalUrl, fi⟩ := e
    rcases downloadFile_cases net st (dlUrlOf originalUrl fi)
        (appFolder ++ jstr "/" ++ fi.folder) fi.fileName with
      ⟨_, heq⟩ | ⟨_, _, heq⟩ | ⟨_, _, _, heq⟩ | ⟨_, _, _, heq⟩ <;>
      simp only [downloadLoop, heq] <;> apply ih <;> simp [hu]

theorem downloadLoop_transfers_inv (net : JStr → Bool) :
    ∀ (entries : List (JStr × FileInfo)) (st : StoreState) (acc : DlStats),
      acc.transfers.Nodup → (∀ u ∈ acc.transfers, u ∈ st.downloadedUrls) →
      (downloadLoop net entries st acc).2.transfers.Nodup ∧
      (∀ u ∈ (downloadLoop net entries st acc).2.transfers,
        u ∈ (downloadLoop net entries st acc).1.downloadedUrls) := by
  intro entries
  induction entries with
  | nil => intro st acc hnd hsub; exact ⟨hnd, hsub⟩
  | cons e rest ih =>
    intro st acc hnd hsub
    obtain ⟨originalUrl, fi⟩ := e
    rcases downloadFile_cases net st (dlUrlOf originalUrl fi)
        (appFolder ++ jstr "/" ++ fi.folder) fi.fileName with
      ⟨hdl, heq⟩ | ⟨hdl, hf, heq⟩ | ⟨hdl, hf, hnet, heq⟩ | ⟨hdl, hf, hnet, heq⟩
    · simp only [downloadLoop, heq]
      exact ih st _ hnd hsub
    · simp only [downloadLoop, heq]
      refine ih _ _ hnd (fun u hu => ?_)
      exact List.mem_cons_of_mem _ (hsub u hu)
    · simp only [downloadLoop, heq]
      refine ih _ _ ?_ ?_
      · rw [List.nodup_append]
        refine ⟨hnd, List.nodup_singleton _, ?_⟩
        intro a ha hb
        simp only [List.mem_singleton] at hb
        subst hb
        exact hdl (hsub _ ha)
      · intro u hu
        rcases List.mem_append.mp hu with h1 | h2
        · exact List.mem_cons_of_mem _ (hsub u h1)
        · simp only [List.mem_singleton] at h2
          subst h2
          exact List.mem_cons_self _ _
    · simp only [downloadLoop, heq]
      exact ih st _ hnd hsub

theorem downloadLoop_allskip (net : JStr → Bool) :
    ∀ (entries : List (JStr × FileInfo)) (st : StoreState) (acc : DlStats),
      (∀ e ∈ entries, dlUrlOf e.1 e.2 ∈ st.downloadedUrls) →
      downloadLoop net entries st acc =
        (st, { acc with skippedCount := acc.skippedCount + entries.length,
                        downloadCount := acc.downloadCount + entries.length }) := by
  intro entries
  induction entries with
  | nil => intro st acc _; simp [downloadLoop]
  | cons e rest ih =>
    intro st acc hall
    obtain ⟨originalUrl, fi⟩ := e
    have hdl : dlUrlOf originalUrl fi ∈ st.downloadedUrls :=
      hall _ (List.mem_cons_self _ _)
    have heq : downloadFile net st (dlUrlOf originalUrl fi)
        (appFolder ++ jstr "/" ++ fi.folder) fi.fileName = (st, .ok none) := by
      unfold downloadFile
      rw [if_pos hdl]
    simp only [downloadLoop, heq]
    rw [ih st _ (fun e' he' => hall e' (List.mem_cons_of_mem _ he'))]
    simp only [List.length_cons]
    have h2 : acc.skippedCount + 1 + rest.length = acc.skippedCount + (rest.length + 1) := by
      omega
    have h3 : acc.downloadCount + 1 + rest.length = acc.downloadCount + (rest.length + 1) := by
      omega
    simp [h2, h3]

theorem downloadLoop_allin (net : JStr → Bool) (hnet : ∀ u, net u = true) :
    ∀ (entries : List (JStr × FileInfo)) (st : StoreState) (acc : DlStats),
      ∀ e ∈ entries, dlUrlOf e.1 e.2 ∈ (downloadLoop net entries st acc).1.downloadedUrls := by
  intro entries
  induction entries with
  | nil => intro st acc e he; simp at he
  | cons e0 rest ih =>
    intro st acc e he
    obtain ⟨originalUrl, fi⟩ := e0
    rcases List.mem_cons.mp he with he0 | herest
    · subst he0
      rcases downloadFile_cases net st (dlUrlOf originalUrl fi)
          (appFolder ++ jstr "/" ++ fi.folder) fi.fileName with
        ⟨hdl, heq⟩ | ⟨hdl, hf, heq⟩ | ⟨hdl, hf, hnet2, heq⟩ | ⟨hdl, hf, hnet2, heq⟩
      · simp only [downloadLoop, heq]
        exact downloadLoop_dl_mono net rest st _ _ hdl
      · simp only [downloadLoop, heq]
        exact downloadLoop_dl_mono net rest _ _ _ (List.mem_cons_self _ _)
      · simp only [downloadLoop, heq]
        exact downloadLoop_dl_mono net rest _ _ _ (List.mem_cons_self _ _)
      · rw [hnet (dlUrlOf originalUrl fi)] at hnet2
        simp at hnet2
    · rcases downloadFile_cases net st (dlUrlOf originalUrl fi)
          (appFolder ++ jstr "/" ++ fi.folder) fi.fileName with
        ⟨hdl, heq⟩ | ⟨hdl, hf, heq⟩ | ⟨hdl, hf, hnet2, heq⟩ | ⟨hdl, hf, hnet2, heq⟩ <;>
        simp only [downloadLoop, heq] <;> exact ih _ _ e herest

theorem downloadLoop_files_sub (net : JStr → Bool) :
    ∀ (entries : List (JStr × FileInfo)) (st : StoreState) (acc : DlStats)
      (f : JStr × JStr), f ∈ (downloadLoop net entries st acc).1.files →
      f ∈ st.files ∨ ∃ e ∈ entries,
        f = (folderOf (appFolder ++ jstr "/" ++ e.2.folder), e.2.fileName) ∧
        net (dlUrlOf e.1 e.2) = true := by
  intro entries
  induction entries with
  | nil => intro st acc f hf; exact Or.inl hf
  | cons e0 rest ih =>
    intro st acc f hf
    obtain ⟨originalUrl, fi⟩ := e0
    rcases downloadFile_cases net st (dlUrlOf originalUrl fi)
        (appFolder ++ jstr "/" ++ fi.folder) fi.fileName with
      ⟨hdl, heq⟩ | ⟨hdl, hff, heq⟩ | ⟨hdl, hff, hnet, heq⟩ | ⟨hdl, hff, hnet, heq⟩
    · simp only [downloadLoop, heq] at hf
      rcases ih _ _ f hf with h | ⟨e, he, hp⟩
      · exact Or.inl h
      · exact Or.inr ⟨e, List.mem_cons_of_mem _ he, hp⟩
    · simp only [downloadLoop, heq] at hf
      rcases ih _ _ f hf with h | ⟨e, he, hp⟩
      · exact Or.inl h
      · exact Or.inr ⟨e, List.mem_cons_of_mem _ he, hp⟩
    · simp only [downloadLoop, heq] at hf
      rcases ih _ _ f hf with h | ⟨e, he, hp⟩
      · rcases List.mem_cons.mp h with h1 | h2
        · exact Or.inr ⟨(originalUrl, fi), List.mem_cons_self _ _, h1, hnet⟩
        · exact Or.inl h2
      · exact Or.inr ⟨e, List.mem_cons_of_mem _ he, hp⟩
    · simp only [downloadLoop, heq] at hf
      rcases ih _ _ f hf with h | ⟨e, he, hp⟩
      · exact Or.inl h
      · exact Or.inr ⟨e, List.mem_cons_of_mem _ he, hp⟩

theorem cleanup_components (t : Nat) (delOk : JStr → JStr → Bool) (c : Catalog)
    (st : StoreState) :
    cleanupUnusedFiles true t delOk c st =
      (⟨st.downloadedUrls, st.files.filter (cleanupKeeps t delOk c)⟩,
       st.files.countP (fun f => !cleanupKeeps t delOk c f)) := by
  simp [cleanupUnusedFiles]

theorem cleanup_no_delete (t : Nat) (delOk : JStr → JStr → Bool) (c : Catalog)
    (st : StoreState) (h : ∀ f ∈ st.files, cleanupKeeps t delOk c f = true) :
    cleanupUnusedFiles true t delOk c st = (st, 0) := by
  rw [cleanup_components]
  rw [List.filter_eq_self.mpr h]
  rw [List.countP_eq_zero.mpr (fun f hf => by simp [h f hf])]

theorem core_components (t : Nat) (net : JStr → Bool) (delOk : JStr → JStr → Bool)
    (c : Catalog) (st : StoreState) :
    downloadMediaFilesCore t net delOk c st =
      (⟨(downloadLoop net (extractUniqueMediaFiles t c) st
           ⟨(extractUniqueMediaFiles t c).length, 0, 0, 0, []⟩).1.downloadedUrls,
        (downloadLoop net (extractUniqueMediaFiles t c) st
           ⟨(extractUniqueMediaFiles t c).length, 0, 0, 0, []⟩).1.files.filter
          (cleanupKeeps t delOk c)⟩,
       (downloadLoop net (extractUniqueMediaFiles t c) st
           ⟨(extractUniqueMediaFiles t c).length, 0, 0, 0, []⟩).2,
       (downloadLoop net (extractUniqueMediaFiles t c) st
           ⟨(extractUniqueMediaFiles t c).length, 0, 0, 0, []⟩).1.files.countP
         (fun f => !cleanupKeeps t delOk c f)) := by
  simp only [downloadMediaFilesCore, cleanup_components]

theorem convertVideoUrlForMobile_id (x : JStr) : convertVideoUrlForMobile x = x := by
  unfold convertVideoUrlForMobile
  split <;> rfl

theorem localUri_ne_nil (f n : JStr) : localUri f n ≠ [] := by
  intro h
  have hl := congrArg List.length h
  simp only [localUri, List.length_append, List.length_nil] at hl
  have h18 : (jstr "file:///DOCUMENTS/").length = 18 := by decide
  rw [h18] at hl
  omega

theorem getLocalFileUri_some (st : StoreState) (f n u : JStr)
    (h : getLocalFileUri st f n = some u) : u = localUri f n := by
  unfold getLocalFileUri at h
  split at h
  · exact (Option.some.injEq _ _ ▸ h).symm
  · simp at h

theorem jsTruthy_some_of_ne_nil (s : JStr) (h : s ≠ []) : jsTruthy (some s) = some s := by
  simp [jsTruthy, h]

theorem productOccs_replaceProduct (now : Nat) (st : StoreState) (p : Product) :
    productOccs (replaceProduct now st p) = (productOccs p).map (occSubst now st) := by
  obtain ⟨sc, iu, vd⟩ := p
  have hIV : ¬ (jstr "images" = jstr "videos") := by decide
  unfold replaceProduct
  rcases him : jsTruthy iu with _ | u
  · rcases hvd : jsTruthy vd with _ | v
    · simp only [productOccs, him, hvd, List.append_nil, List.map_nil]
    · rcases hloc : getLocalFileUri st (jstr "videos")
          (getFileNameFromUrl now v ((⟨sc, iu, vd⟩ : Product).style_code ++ jstr "_vid_"))
          with _ | uri
      · simp only [him, hvd, hloc, productOccs, List.nil_append, List.map_cons,
          List.map_nil, occSubst, replacedUrl]
      · have huri := getLocalFileUri_some st _ _ _ hloc
        have hne : uri ≠ [] := huri ▸ localUri_ne_nil _ _
        have hconv : convertVideoUrlForMobile uri = uri := convertVideoUrlForMobile_id uri
        have htr : jsTruthy (some uri) = some uri := jsTruthy_some_of_ne_nil uri hne
        simp only [him, hvd, hloc, hconv, productOccs, htr, List.nil_append,
          List.map_cons, List.map_nil, occSubst, replacedUrl]
        simp [hconv]
  · rcases hloci : getLocalFileUri st (jstr "images")
        (getFileNameFromUrl now u ((⟨sc, iu, vd⟩ : Product).style_code ++ jstr "_img_"))
        with _ | uriI
    · rcases hvd : jsTruthy vd with _ | v
      · simp only [him, hloci, hvd, productOccs, List.append_nil, List.map_append,
          List.map_cons, List.map_nil, occSubst, replacedUrl]
      · rcases hloc : getLocalFileUri st (jstr "videos")
            (getFileNameFromUrl now v (sc ++ jstr "_vid_")) with _ | uri
        · simp only [him, hloci, hvd, hloc, productOccs, List.map_append, List.map_cons,
            List.map_nil, occSubst, replacedUrl]
        · have huri := getLocalFileUri_some st _ _ _ hloc
          have hne : uri ≠ [] := huri ▸ localUri_ne_nil _ _
          have hconv : convertVideoUrlForMobile uri = uri := convertVideoUrlForMobile_id uri
          have htr : jsTruthy (some uri) = some uri := jsTruthy_some_of_ne_nil uri hne
          simp only [him, hloci, hvd, hloc, hconv, productOccs, htr, List.map_append,
            List.map_cons, List.map_nil, occSubst, replacedUrl]
          simp [hconv]
    · have huriI := getLocalFileUri_some st _ _ _ hloci
      have hneI : uriI ≠ [] := huriI ▸ localUri_ne_nil _ _
      have htrI : jsTruthy (some uriI) = some uriI := jsTruthy_some_of_ne_nil uriI hneI
      rcases hvd : jsTruthy vd with _ | v
      · simp only [him, hloci, hvd, productOccs, htrI, List.append_nil, List.map_append,
          List.map_cons, List.map_nil, occSubst, replacedUrl]
        simp [hIV]
      · rcases hloc : getLocalFileUri st (jstr "videos")
            (getFileNameFromUrl now v (sc ++ jstr "_vid_")) with _ | uri
        · simp only [him, hloci, hvd, hloc, productOccs, htrI, List.map_append,
            List.map_cons, List.map_nil, occSubst, replacedUrl]
          simp [hIV]
        · have huri := getLocalFileUri_some st _ _ _ hloc
          have hne : uri ≠ [] := huri ▸ localUri_ne_nil _ _
          have hconv : convertVideoUrlForMobile uri = uri := convertVideoUrlForMobile_id uri
          have htr : jsTruthy (some uri) = some uri := jsTruthy_some_of_ne_nil uri hne
          simp only [him, hloci, hvd, hloc, hconv, productOccs, htrI, htr,
            List.map_append, List.map_cons, List.map_nil, occSubst, replacedUrl]
          simp [hconv, hIV]

theorem collectionOccs_replaceCollection (now : Nat) (st : StoreState) (k : JStr)
    (col : Collection) :
    collectionOccs k (replaceCollection now st k col) =
      (collectionOccs k col).map (occSubst now st) := by
  obtain ⟨biu, prods⟩ := col
  have hIV : ¬ (jstr "images" = jstr "videos") := by decide
  have hprods : ∀ ps : List Product,
      (ps.map (replaceProduct now st)).flatMap productOccs =
        (ps.flatMap productOccs).map (occSubst now st) := by
    intro ps
    induction ps with
    | nil => rfl
    | cons p rest ih =>
      simp only [List.map_cons, List.flatMap_cons, List.map_append, ih,
        productOccs_replaceProduct]
  unfold replaceCollection
  rcases hb : jsTruthy biu with _ | u
  · simp only [hb, collectionOccs, List.map_append]
    rw [hprods prods]
    simp [hb]
  · rcases hloc : getLocalFileUri st (jstr "images")
        (getFileNameFromUrl now u
          (jstr "collection_" ++ k ++ jstr "_")) with _ | uri
    · simp only [hb, hloc, collectionOccs, List.map_append]
      rw [hprods prods]
      simp only [hb, List.map_cons, List.map_nil, occSubst, replacedUrl, hloc]
    · have huri := getLocalFileUri_some st _ _ _ hloc
      have hne : uri ≠ [] := huri ▸ localUri_ne_nil _ _
      have htr : jsTruthy (some uri) = some uri := jsTruthy_some_of_ne_nil uri hne
      simp only [hb, hloc, collectionOccs, htr, List.map_append]
      rw [hprods prods]
      simp only [hb, List.map_cons, List.map_nil, occSubst, replacedUrl, hloc]
      simp [hIV]

theorem mediaOccs_replace (now : Nat) (st : StoreState) (c : Catalog) :
    mediaOccs (replaceUrlsWithLocalPaths true now st c) =
      (mediaOccs c).map (occSubst now st) := by
  unfold replaceUrlsWithLocalPaths
  rw [if_neg (by simp)]
  unfold mediaOccs
  obtain ⟨cols⟩ := c
  induction cols with
  | nil => rfl
  | cons kc rest ih =>
    simp only [List.map_cons, List.flatMap_cons, List.map_append]
    rw [collectionOccs_replaceCollection]
    rw [ih]

/-- C1: for every catalog (in particular one where two different products,
or a product and a collection banner, reference the string-identical media
URL) the extraction map has pairwise-distinct URL keys and an entry exactly
for the referenced URLs, and a full download pass completes at most one
`FileTransfer` download per URL (the list of completed transfer URLs has no
duplicate). -/
theorem c1_extraction_dedup (now : Nat) (c : Catalog) (net : JStr → Bool)
    (delOk : JStr → JStr → Bool) (st : StoreState) :
    ((extractUniqueMediaFiles now c).map Prod.fst).Nodup
    ∧ (∀ u : JStr, (lookupA u (extractUniqueMediaFiles now c)).isSome = true ↔
        u ∈ (mediaOccs c).map MediaOcc.url)
    ∧ (downloadMediaFilesCore now net delOk c st).2.1.transfers.Nodup := by
  refine ⟨extract_keys_nodup now c, ?_, ?_⟩
  · intro u
    rw [extract_lookup_eq_find]
    rw [Option.isSome_map']
    rw [List.find?_isSome]
    constructor
    · rintro ⟨o, ho, hp⟩
      exact List.mem_map.mpr ⟨o, ho, by simpa using hp⟩
    · intro h
      obtain ⟨o, ho, hu⟩ := List.mem_map.mp h
      exact ⟨o, ho, by simpa using hu⟩
  · rw [core_components]
    exact (downloadLoop_transfers_inv net _ _ _ (by simp) (by simp)).1

/-- C1 witness: the dedup map of a catalog whose two products share one
URL has distinct keys. -/
theorem c1_witness : ((extractUniqueMediaFiles 0 catShared).map Prod.fst).Nodup :=
  (c1_extraction_dedup 0 catShared alwaysOk delAlwaysOk ⟨[], []⟩).1

/-- C2 counterexample: two distinct URLs sharing their first six characters
and their final path segment derive the identical filename, and for a URL
holding a character above 0xFF the derivation depends on the clock. -/
theorem c2_counterexample :
    (jstr "https://host/x/a.jpg" ≠ jstr "https://host/y/a.jpg"
      ∧ getFileNameFromUrl 0 (jstr "https://host/x/a.jpg") (jstr "p_") =
          getFileNameFromUrl 0 (jstr "https://host/y/a.jpg") (jstr "p_"))
    ∧ getFileNameFromUrl 0 urlEuro (jstr "p_") ≠ getFileNameFromUrl 1 urlEuro (jstr "p_") := by
  decide

/-- C2 (amended): for every URL whose characters are Latin-1 (so that the
base64 hashing applies instead of the timestamp fallback), the filename
derivation is a pure function of the URL and prefix — the same value on
every call, whatever the clock; distinct URLs may however collide. -/
theorem c2_deterministic_filename (t1 t2 : Nat) (url pfx : JStr)
    (h : ∀ ch ∈ url, ch.toNat ≤ 255) :
    getFileNameFromUrl t1 url pfx = getFileNameFromUrl t2 url pfx :=
  getFileNameFromUrl_time_indep t1 t2 url pfx h

/-- C2 witness: a concrete Latin-1 URL derives the same filename at two
different clock values. -/
theorem c2_witness :
    getFileNameFromUrl 0 urlA (jstr "A_img_") = getFileNameFromUrl 5 urlA (jstr "A_img_") :=
  c2_deterministic_filename 0 5 urlA (jstr "A_img_") (by decide)

/-- C3 counterexample: in a catalog where a second product references the
same URL as the first, the rewriting step recomputes the filename with the
second product's prefix, which differs from the filename the extraction
map recorded at the first encounter. -/
theorem c3_counterexample :
    (⟨urlX, jstr "B_img_", jstr "images", jstr "product_image", jstr "B"⟩ : MediaOcc) ∈
        mediaOccs catShared
    ∧ (lookupA urlX (extractUniqueMediaFiles 0 catShared)).map FileInfo.fileName =
        some (getFileNameFromUrl 0 urlX (jstr "A_img_"))
    ∧ getFileNameFromUrl 0 urlX (jstr "A_img_") ≠ getFileNameFromUrl 0 urlX (jstr "B_img_") := by
  decide

/-- C3 (amended): for every media field that is the first in catalog
traversal order to reference its URL, and whose URL's derivation is
deterministic (Latin-1), the filename the rewriting step recomputes (at any
later clock value) equals the filename recorded in the extraction map. -/
theorem c3_first_reference (t1 t2 : Nat) (c : Catalog) (u : JStr) (o : MediaOcc)
    (hfind : (mediaOccs c).find? (fun o' => decide (o'.url = u)) = some o)
    (hlatin : ∀ ch ∈ u, ch.toNat ≤ 255) :
    (lookupA u (extractUniqueMediaFiles t1 c)).map FileInfo.fileName =
      some (getFileNameFromUrl t2 u o.pfx) := by
  rw [extract_lookup_eq_find, hfind]
  have hp := List.find?_some hfind
  have hu : o.url = u := by simpa using hp
  have h2 : (mkFileInfo t1 o).fileName = getFileNameFromUrl t2 u o.pfx := by
    simp only [mkFileInfo]
    rw [hu]
    exact getFileNameFromUrl_time_indep t1 t2 u o.pfx hlatin
  simp [h2]

/-- C3 witness: for a catalog whose URLs are each referenced once, the
rewriting-time filename of the first product equals the mapped one. -/
theorem c3_witness :
    (lookupA urlA (extractUniqueMediaFiles 0 catAC)).map FileInfo.fileName =
      some (getFileNameFromUrl 7 urlA (jstr "A_img_")) :=
  c3_first_reference 0 7 catAC urlA
    ⟨urlA, jstr "A_img_", jstr "images", jstr "product_image", jstr "A"⟩
    (by decide) (by decide)

theorem folderOf_app (fo : JStr) (h : fo = jstr "images" ∨ fo = jstr "videos") :
    folderOf (appFolder ++ jstr "/" ++ fo) = fo := by
  rcases h with h | h <;> subst h <;> decide

/-- C4: a synchronization pass in which some downloads fail and others
succeed resolves (the per-file errors are caught), and in the rewritten
catalog every media field whose derived file is present locally carries the
local-storage reference while every field whose file is absent — in
particular one whose download failed with no prior cached file — keeps its
original remote URL unchanged. -/
theorem c4_partial_failure (now : Nat) (net : JStr → Bool) (delOk : JStr → JStr → Bool)
    (c : Catalog) (st0 : StoreState) :
    (downloadMediaFiles true now net delOk c st0).isOk = true
    ∧ mediaOccs (replaceUrlsWithLocalPaths true now
        (downloadMediaFilesCore now net delOk c st0).1 c) =
      (mediaOccs c).map (occSubst now (downloadMediaFilesCore now net delOk c st0).1)
    ∧ ∀ o ∈ mediaOccs c,
        (o.folder, getFileNameFromUrl now o.url o.pfx) ∉ st0.files →
        (∀ e ∈ extractUniqueMediaFiles now c,
          (e.2.folder, e.2.fileName) = (o.folder, getFileNameFromUrl now o.url o.pfx) →
          net (dlUrlOf e.1 e.2) = false) →
        occSubst now (downloadMediaFilesCore now net delOk c st0).1 o = o := by
  refine ⟨by simp [downloadMediaFiles, Except.isOk, Except.toBool], mediaOccs_replace now _ c, ?_⟩
  intro o ho h1 h2
  have hnotmem : (o.folder, getFileNameFromUrl now o.url o.pfx) ∉
      (downloadMediaFilesCore now net delOk c st0).1.files := by
    intro hmem
    rw [core_components] at hmem
    have hloop := (List.mem_filter.mp hmem).1
    rcases downloadLoop_files_sub net _ _ _ _ hloop with h | ⟨e, he, hf, hnet⟩
    · exact h1 h
    · obtain ⟨o', ho', heo⟩ := extract_mem_source now c e he
      have hfo : e.2.folder = jstr "images" ∨ e.2.folder = jstr "videos" := by
        rw [heo]
        exact mediaOccs_folder c o' ho'
      rw [folderOf_app e.2.folder hfo] at hf
      have := h2 e he hf.symm
      rw [hnet] at this
      simp at this
  obtain ⟨u0, p0, f0, t0, k0⟩ := o
  unfold occSubst replacedUrl getLocalFileUri
  rw [if_neg hnotmem]

/-- C4 witness: with the third of three product URLs failing to download
from an empty store, the pass resolves and the third field keeps its
remote URL. -/
theorem c4_witness :
    (downloadMediaFiles true 0 netFailC delAlwaysOk catABC ⟨[], []⟩).isOk = true
    ∧ occSubst 0 (downloadMediaFilesCore 0 netFailC delAlwaysOk catABC ⟨[], []⟩).1
        ⟨urlC, jstr "C_img_", jstr "images", jstr "product_image", jstr "C"⟩ =
      ⟨urlC, jstr "C_img_", jstr "images", jstr "product_image", jstr "C"⟩ := by
  refine ⟨(c4_partial_failure 0 netFailC delAlwaysOk catABC ⟨[], []⟩).1, ?_⟩
  exact (c4_partial_failure 0 netFailC delAlwaysOk catABC ⟨[], []⟩).2.2
    ⟨urlC, jstr "C_img_", jstr "images", jstr "product_image", jstr "C"⟩
    (by decide) (by decide) (by decide)

/-- C5: with every per-file delete succeeding, cleanup leaves in `images/`
and `videos/` exactly the stored files whose names the current catalog's
extraction wants: every unreferenced file is deleted, every referenced file
retained, and when every wanted file was stored the folder ends up exactly
equal to the wanted set. -/
theorem c5_cleanup_exact (now : Nat) (c : Catalog) (st : StoreState) :
    (∀ n : JStr, (jstr "images", n) ∈ (cleanupUnusedFiles true now delAlwaysOk c st).1.files ↔
        ((jstr "images", n) ∈ st.files ∧ n ∈ activeFileNames now c (jstr "images")))
    ∧ (∀ n : JStr, (jstr "videos", n) ∈ (cleanupUnusedFiles true now delAlwaysOk c st).1.files ↔
        ((jstr "videos", n) ∈ st.files ∧ n ∈ activeFileNames now c (jstr "videos")))
    ∧ ((∀ n ∈ activeFileNames now c (jstr "images"), (jstr "images", n) ∈ st.files) →
        ∀ n : JStr,
          (jstr "images", n) ∈ (cleanupUnusedFiles true now delAlwaysOk c st).1.files ↔
            n ∈ activeFileNames now c (jstr "images"))
    ∧ ((∀ n ∈ activeFileNames now c (jstr "videos"), (jstr "videos", n) ∈ st.files) →
        ∀ n : JStr,
          (jstr "videos", n) ∈ (cleanupUnusedFiles true now delAlwaysOk c st).1.files ↔
            n ∈ activeFileNames now c (jstr "videos")) := by
  have himg : ∀ n : JStr,
      (jstr "images", n) ∈ (cleanupUnusedFiles true now delAlwaysOk c st).1.files ↔
        ((jstr "images", n) ∈ st.files ∧ n ∈ activeFileNames now c (jstr "images")) := by
    intro n
    rw [cleanup_components]
    show (jstr "images", n) ∈ st.files.filter (cleanupKeeps now delAlwaysOk c) ↔ _
    rw [List.mem_filter]
    simp [cleanupKeeps, delAlwaysOk]
  have hvid : ∀ n : JStr,
      (jstr "videos", n) ∈ (cleanupUnusedFiles true now delAlwaysOk c st).1.files ↔
        ((jstr "videos", n) ∈ st.files ∧ n ∈ activeFileNames now c (jstr "videos")) := by
    intro n
    rw [cleanup_components]
    show (jstr "videos", n) ∈ st.files.filter (cleanupKeeps now delAlwaysOk c) ↔ _
    rw [List.mem_filter]
    have hvi : ¬ (jstr "videos" = jstr "images") := by decide
    simp [cleanupKeeps, delAlwaysOk, hvi]
  refine ⟨himg, hvid, ?_, ?_⟩
  · intro hall n
    rw [himg n]
    constructor
    · exact fun h => h.2
    · exact fun h => ⟨hall n h, h⟩
  · intro hall n
    rw [hvid n]
    constructor
    · exact fun h => h.2
    · exact fun h => ⟨hall n h, h⟩

/-- C5 witness: the spec's scenario — a stored images folder holding the
two wanted files plus one stale file; after cleanup a wanted name is in
the folder exactly when it is wanted. -/
theorem c5_witness :
    (jstr "images", getFileNameFromUrl 0 urlA (jstr "A_img_")) ∈
      (cleanupUnusedFiles true 0 delAlwaysOk catAC
        ⟨[], [(jstr "images", getFileNameFromUrl 0 urlA (jstr "A_img_")),
              (jstr "images", jstr "old_b.jpg"),
              (jstr "images", getFileNameFromUrl 0 urlC (jstr "C_img_"))]⟩).1.files ↔
      getFileNameFromUrl 0 urlA (jstr "A_img_") ∈ activeFileNames 0 catAC (jstr "images") :=
  (c5_cleanup_exact 0 catAC
    ⟨[], [(jstr "images", getFileNameFromUrl 0 urlA (jstr "A_img_")),
          (jstr "images", jstr "old_b.jpg"),
          (jstr "images", getFileNameFromUrl 0 urlC (jstr "C_img_"))]⟩).2.2.1
    (by decide) (getFileNameFromUrl 0 urlA (jstr "A_img_"))

/-- C6 counterexample: a catalog whose single media URL holds a character
above 0xFF derives a timestamp filename; the first pass (all transfers
succeeding) stores the file, and an immediate second pass at a later clock
value deletes it (while the session dedup set suppresses the re-download),
so the second pass does not delete zero files. -/
theorem c6_counterexample :
    (downloadMediaFilesCore 0 alwaysOk delAlwaysOk catEuro ⟨[], []⟩).2.1.errorCount = 0
    ∧ (downloadMediaFilesCore 0 alwaysOk delAlwaysOk catEuro ⟨[], []⟩).2.1.transfers =
        [urlEuro]
    ∧ (downloadMediaFilesCore 1 alwaysOk delAlwaysOk catEuro
        (downloadMediaFilesCore 0 alwaysOk delAlwaysOk catEuro ⟨[], []⟩).1).2.2 = 1 := by
  decide

/-- C6 (amended): for every catalog all of whose media URLs are Latin-1
(deterministic filenames), running the full pass a second time right after
a fully successful pass performs zero downloads — every entry is skipped —
and deletes zero files, whatever the two clock values. -/
theorem c6_idempotent_second_pass (t1 t2 : Nat) (c : Catalog) (st0 : StoreState)
    (hlatin : ∀ o ∈ mediaOccs c, ∀ ch ∈ o.url, ch.toNat ≤ 255) :
    (downloadMediaFilesCore t2 alwaysOk delAlwaysOk c
        (downloadMediaFilesCore t1 alwaysOk delAlwaysOk c st0).1).2.1.transfers = []
    ∧ (downloadMediaFilesCore t2 alwaysOk delAlwaysOk c
        (downloadMediaFilesCore t1 alwaysOk delAlwaysOk c st0).1).2.1.skippedCount =
        (extractUniqueMediaFiles t2 c).length
    ∧ (downloadMediaFilesCore t2 alwaysOk delAlwaysOk c
        (downloadMediaFilesCore t1 alwaysOk delAlwaysOk c st0).1).2.2 = 0 := by
  have hm : extractUniqueMediaFiles t2 c = extractUniqueMediaFiles t1 c :=
    extract_time_indep t2 t1 c hlatin
  have hkeep : ∀ f, cleanupKeeps t2 delAlwaysOk c f = cleanupKeeps t1 delAlwaysOk c f := by
    intro f
    unfold cleanupKeeps activeFileNames
    rw [hm]
  have hdlst : ∀ e ∈ extractUniqueMediaFiles t2 c,
      dlUrlOf e.1 e.2 ∈
        (downloadMediaFilesCore t1 alwaysOk delAlwaysOk c st0).1.downloadedUrls := by
    rw [core_components t1, hm]
    exact downloadLoop_allin alwaysOk (fun _ => rfl) _ _ _
  have hfilesst : ∀ f ∈ (downloadMediaFilesCore t1 alwaysOk delAlwaysOk c st0).1.files,
      cleanupKeeps t2 delAlwaysOk c f = true := by
    rw [core_components t1]
    intro f hf
    rw [hkeep f]
    exact (List.mem_filter.mp hf).2
  rw [core_components t2]
  rw [downloadLoop_allskip alwaysOk _ _ _ hdlst]
  refine ⟨rfl, by simp, ?_⟩
  show ((downloadMediaFilesCore t1 alwaysOk delAlwaysOk c st0).1.files.countP
    (fun f => !cleanupKeeps t2 delAlwaysOk c f)) = 0
  rw [List.countP_eq_zero.mpr]
  intro f hf
  simp [hfilesst f hf]

/-- C6 witness: a second pass over a three-product Latin-1 catalog from an
empty store transfers nothing. -/
theorem c6_witness :
    (downloadMediaFilesCore 1 alwaysOk delAlwaysOk catABC
        (downloadMediaFilesCore 0 alwaysOk delAlwaysOk catABC ⟨[], []⟩).1).2.1.transfers =
      [] :=
  (c6_idempotent_second_pass 0 1 catABC ⟨[], []⟩ (by decide)).1

/-- C7: the connectivity check reports offline when its own machinery
fails, and — once the platform signals suggested online — when the backend
probe returns a non-ok response or throws/times out; it reports online only
when the machinery worked and the probe returned ok. -/
theorem c7_fail_closed (i : ConnInput) :
    (i.internalOk = false → checkConnectivity i = false)
    ∧ (prelimOnline i = true → i.probe = some false → checkConnectivity i = false)
    ∧ (prelimOnline i = true → i.probe = none → checkConnectivity i = false)
    ∧ (checkConnectivity i = true → i.internalOk = true ∧ i.probe = some true) := by
  refine ⟨?_, ?_, ?_, ?_⟩
  · intro h
    unfold checkConnectivity
    rw [if_pos h]
  · intro hp hprobe
    unfold checkConnectivity
    by_cases hint : i.internalOk = false
    · rw [if_pos hint]
    · rw [if_neg hint, if_pos hp, hprobe]
  · intro hp hprobe
    unfold checkConnectivity
    by_cases hint : i.internalOk = false
    · rw [if_pos hint]
    · rw [if_neg hint, if_pos hp, hprobe]
  · intro h
    unfold checkConnectivity at h
    by_cases hint : i.internalOk = false
    · rw [if_pos hint] at h
      simp at h
    · rw [if_neg hint] at h
      refine ⟨by simpa using hint, ?_⟩
      by_cases hp : prelimOnline i = true
      · rw [if_pos hp] at h
        rcases hprobe : i.probe with _ | ok
        · rw [hprobe] at h
          simp at h
        · rw [hprobe] at h
          cases ok
          · simp at h
          · rfl
      · rw [if_neg hp] at h
        simp at h

/-- C7 witness: platform online but the probe timed out — the check says
offline. -/
theorem c7_witness : checkConnectivity ⟨true, some true, none, true⟩ = false :=
  (c7_fail_closed ⟨true, some true, none, true⟩).2.2.1 rfl rfl

/-- C8 counterexample: an ok response whose body parses to the empty array
makes the field fetch return successfully with `undefined` (`none`) — no
`EmptyResultError` is raised. -/
theorem c8_counterexample :
    makeApiCall (V := Unit) (.resp true 200 (jstr "OK") (.ok [])) = .ok none := by
  rfl

/-- C8 (amended): the field fetch returns the first element of the parsed
array on success — `undefined` when the array is empty, with no error —
and fails with a wrapped error when the fetch threw, the HTTP status is
not ok, or the body is not valid JSON. -/
theorem c8_api_call_behavior (V : Type) (m statusText : JStr) (status : Nat)
    (data : List V) :
    makeApiCall (V := V) (.threw m) = .error (jstr "API request failed: " ++ m)
    ∧ makeApiCall (V := V) (.resp false status statusText (.ok data)) =
        .error (jstr "API request failed: HTTP error! status: " ++ natToJs status ++
          jstr " - " ++ statusText)
    ∧ makeApiCall (V := V) (.resp true status statusText (.error m)) =
        .error (jstr "API request failed: " ++ m)
    ∧ makeApiCall (V := V) (.resp true status statusText (.ok data)) = .ok data.head? := by
  exact ⟨rfl, rfl, rfl, rfl⟩

/-- C8 witness: a one-row response yields its first row. -/
theorem c8_witness :
    makeApiCall (V := Unit) (.resp true 200 (jstr "OK") (.ok [()])) = .ok (some ()) :=
  (c8_api_call_behavior Unit (jstr "boom") (jstr "OK") 200 [()]).2.2.2

/-- C9: with the device offline and the persisted catalog or viewer HTML
missing, the load fails showing the first-time-setup error — whose text
names "first-time setup" — leaves storage untouched and issues no network
request. -/
theorem c9_offline_first_run (env : LoadEnv) (fs : AppFS)
    (hoff : env.isOnline = false)
    (hmiss : (checkLocalJsonExists fs && checkLocalHtmlExists fs) = false) :
    loadFlipbook env fs = ((false, some firstTimeSetupMsg), fs, [])
    ∧ jsIncludes firstTimeSetupMsg (jstr "first-time setup") = true := by
  constructor
  · unfold loadFlipbook
    simp [hoff, hmiss]
  · decide

/-- C9 witness: offline with an empty store, the load shows the
first-time-setup error and the request trace is empty. -/
theorem c9_witness :
    loadFlipbook
      ⟨false, 0, alwaysOk, delAlwaysOk, .threw (jstr "x"), .threw (jstr "x"),
       .threw (jstr "x"), true, true⟩
      ⟨none, false, ⟨[], []⟩⟩ =
      ((false, some firstTimeSetupMsg), ⟨none, false, ⟨[], []⟩⟩, []) :=
  (c9_offline_first_run
    ⟨false, 0, alwaysOk, delAlwaysOk, .threw (jstr "x"), .threw (jstr "x"),
     .threw (jstr "x"), true, true⟩
    ⟨none, false, ⟨[], []⟩⟩ rfl rfl).1

/-- C10: after a `downloadFile` call the dedup set gained at most the
called URL, and only when the file already existed locally or the transfer
succeeded; a call that throws leaves the whole state unchanged, so the URL
stays eligible for a retry later in the session. -/
theorem c10_dedup_set_invariant (net : JStr → Bool) (st : StoreState)
    (url folderPath fileName : JStr) :
    ((downloadFile net st url folderPath fileName).2.isOk = false →
      (downloadFile net st url folderPath fileName).1 = st)
    ∧ (∀ u : JStr, u ∈ (downloadFile net st url folderPath fileName).1.downloadedUrls →
        u ∈ st.downloadedUrls ∨
          (u = url ∧ ((folderOf folderPath, fileName) ∈ st.files ∨ net url = true)))
    ∧ (url ∈ (downloadFile net st url folderPath fileName).1.downloadedUrls →
        url ∉ st.downloadedUrls →
        (downloadFile net st url folderPath fileName).2.isOk = true) := by
  rcases downloadFile_cases net st url folderPath fileName with
    ⟨hdl, heq⟩ | ⟨hdl, hf, heq⟩ | ⟨hdl, hf, hnet, heq⟩ | ⟨hdl, hf, hnet, heq⟩
  · rw [heq]
    refine ⟨fun _ => rfl, fun u hu => Or.inl hu, fun _ h => absurd hdl h⟩
  · rw [heq]
    refine ⟨fun h => by simp [Except.isOk, Except.toBool] at h, ?_, ?_⟩
    · intro u hu
      rcases List.mem_cons.mp hu with h1 | h2
      · exact Or.inr ⟨h1, Or.inl hf⟩
      · exact Or.inl h2
    · intro _ _
      rfl
  · rw [heq]
    refine ⟨fun h => by simp [Except.isOk, Except.toBool] at h, ?_, ?_⟩
    · intro u hu
      rcases List.mem_cons.mp hu with h1 | h2
      · exact Or.inr ⟨h1, Or.inr hnet⟩
      · exact Or.inl h2
    · intro _ _
      rfl
  · rw [heq]
    exact ⟨fun _ => rfl, fun u hu => Or.inl hu, fun h1 h2 => absurd h1 h2⟩

/-- C10 witness: a failing transfer from an empty session leaves the dedup
set unchanged. -/
theorem c10_witness :
    (downloadFile (fun _ => false) ⟨[], []⟩ urlA (jstr "SochApp/images")
      (jstr "a.jpg")).1 = ⟨[], []⟩ :=
  (c10_dedup_set_invariant (fun _ => false) ⟨[], []⟩ urlA (jstr "SochApp/images")
    (jstr "a.jpg")).1 (by decide)
